import Mathlib

/-
Verification of the dmsuite auxiliary Python scripts.

File contents are modelled as `List Char` (Python `str`), line lists as
`List (List Char)` (Python `list[str]`).  Each script's text manipulation is
translated function-by-function from the Python source; loops that walk an
index through the text are translated either structurally (consuming the list
from the front) or with an explicit fuel argument that strictly dominates the
number of iterations the Python loop can perform (every loop advances its
position by at least one per iteration and stops once the position passes the
end of the text, so `length + 3` fuel is always enough).
-/

namespace DMSuite

/-- Character constants, named to keep the embedding readable. -/
def nlC : Char := Char.ofNat 10

def bslashC : Char := Char.ofNat 92

def dqC : Char := Char.ofNat 34

def sqC : Char := Char.ofNat 39

def btC : Char := Char.ofNat 96

def obrC : Char := Char.ofNat 123

def cbrC : Char := Char.ofNat 125

/-- Coerce a Lean string literal to the `List Char` representation. -/
def str (s : String) : List Char := s.data

/-- Python `needle in hay` (substring containment) on `List Char`. -/
def hasSub (pat : List Char) : List Char → Bool
  | [] => pat.isEmpty
  | x :: rest => pat.isPrefixOf (x :: rest) || hasSub pat rest

/-- Auxiliary scanner for Python `str.find`: first index `≥ i` at which
`pat` occurs. -/
def pyFindAux (pat : List Char) : List Char → Nat → Option Nat
  | [], i => if pat.isEmpty then some i else none
  | x :: rest, i =>
    if pat.isPrefixOf (x :: rest) then some i else pyFindAux pat rest (i + 1)

/-- Python `hay.find(pat)` (as `Option Nat`; Python returns `-1` for `none`). -/
def pyFind (hay pat : List Char) : Option Nat := pyFindAux pat hay 0

/-- Python `hay.find(pat, start)`. -/
def pyFindFrom (hay pat : List Char) (start : Nat) : Option Nat :=
  (pyFind (hay.drop start) pat).map (· + start)

/-- Index of the last occurrence of `ch` in a list (`none` if absent). -/
def lastIdx (ch : Char) : List Char → Option Nat
  | [] => none
  | x :: rest =>
    match lastIdx ch rest with
    | some j => some (j + 1)
    | none => if x = ch then some 0 else none

/-- Python `hay.rfind(ch, 0, stop)` with Python's signed-index semantics for
`stop`: a negative `stop` counts from the end, and the bound is clamped to
`[0, len]`.  Returns `-1` when the character does not occur in the region. -/
def pyRfindCh (hay : List Char) (ch : Char) (stop : Int) : Int :=
  let n : Int := hay.length
  let e : Int := if stop < 0 then stop + n else stop
  let e2 : Nat := (max 0 (min e n)).toNat
  match lastIdx ch (hay.take e2) with
  | some j => (j : Int)
  | none => -1

/-- Python `hay[i:]` with signed-index semantics. -/
def pySliceFrom (hay : List Char) (i : Int) : List Char :=
  if i < 0 then hay.drop (max 0 ((hay.length : Int) + i)).toNat
  else hay.drop i.toNat

/-- Python whitespace test (the ASCII cases of `str.strip`). -/
def isWs (c : Char) : Bool :=
  c = ' ' || c = Char.ofNat 9 || c = nlC || c = Char.ofNat 13 ||
  c = Char.ofNat 11 || c = Char.ofNat 12

/-- Python `s.strip()`. -/
def pyStrip (xs : List Char) : List Char :=
  ((xs.dropWhile isWs).reverse.dropWhile isWs).reverse

/-- Python `s.startswith(p)` for a one-character prefix. -/
def startsWithCh (ch : Char) : List Char → Bool
  | [] => false
  | x :: _ => x = ch

/-- Python `s.split(sep, 1)` at a one-character separator: the pair of the
text before the first occurrence and the text after it (whole text and `[]`
when the separator is absent; the scripts only call it after checking
presence). -/
def splitFirst (ch : Char) : List Char → List Char × List Char
  | [] => ([], [])
  | x :: rest =>
    if x = ch then ([], rest)
    else
      let p := splitFirst ch rest
      (x :: p.1, p.2)

/-- Python `s.count(c)` for a single character. -/
def countCh (ch : Char) : List Char → Nat
  | [] => 0
  | x :: rest => (if x = ch then 1 else 0) + countCh ch rest

/-- Python `content.split('\n')`. -/
def splitNL : List Char → List (List Char)
  | [] => [[]]
  | x :: rest =>
    if x = nlC then [] :: splitNL rest
    else
      match splitNL rest with
      | h :: t => (x :: h) :: t
      | [] => [[x]]

/-- Python `'\n'.join(lines)`. -/
def joinNL : List (List Char) → List Char
  | [] => []
  | [x] => x
  | x :: y :: t => x ++ nlC :: joinNL (y :: t)

/-- Fuelled worker for Python `s.replace(pat, repl)`: scans left to right,
replacing non-overlapping occurrences.  Each step consumes at least one input
character, so fuel `xs.length` suffices (`pyReplace` below supplies it). -/
def replaceAllF (pat repl : List Char) : Nat → List Char → List Char
  | 0, xs => xs
  | _ + 1, [] => []
  | fuel + 1, x :: rest =>
    if !pat.isEmpty && pat.isPrefixOf (x :: rest) then
      repl ++ replaceAllF pat repl fuel ((x :: rest).drop pat.length)
    else
      x :: replaceAllF pat repl fuel rest

/-- Python `s.replace(pat, repl)`. -/
def pyReplace (pat repl xs : List Char) : List Char :=
  replaceAllF pat repl xs.length xs

/-- Python word-character test (`\w` = `[A-Za-z0-9_]` for ASCII). -/
def isWordCh (c : Char) : Bool :=
  ('a' ≤ c && c ≤ 'z') || ('A' ≤ c && c ≤ 'Z') || ('0' ≤ c && c ≤ '9') || c = '_'

/-- Worker for `re.sub(r'\bff\b', 'cfg.fontFamily', line)`: `prev` is the
character immediately before the scan position (`none` at the start of the
string), used to decide the left word boundary. -/
def resubFfAux (prev : Option Char) : List Char → List Char
  | [] => []
  | 'f' :: 'f' :: rest =>
    if (match prev with | none => true | some c => !isWordCh c) &&
       (match rest with | [] => true | c :: _ => !isWordCh c) then
      str "cfg.fontFamily" ++ resubFfAux (some 'f') rest
    else
      'f' :: resubFfAux (some 'f') ('f' :: rest)
  | x :: rest => x :: resubFfAux (some x) rest

/-- Python `re.sub(r'\bff\b', 'cfg.fontFamily', line)` from fix-ff-errors.py. -/
def resubFf (xs : List Char) : List Char := resubFfAux none xs

/-- A Python `IndexError` (the only exception our list models raise). -/
inductive PyError where
  | indexError
  deriving DecidableEq, Repr

deriving instance DecidableEq for Except

/-- Python `l[i]` on a list: raises `IndexError` when out of range. -/
def pyGet {α : Type} (l : List α) (i : Nat) : Except PyError α :=
  match l[i]? with
  | some x => .ok x
  | none => .error .indexError

/-!
## scripts/swap-front-back.py — `find_matching_brace`

The Python function is a `while` loop over a character position with nested
skip loops for quoted strings, template literals (with `${...}` expressions
and nested backticks inside them), line comments and block comments.  Each
loop is translated as its own fuelled recursion; the top-level wrapper passes
`length + 3` fuel to every loop, which strictly exceeds the number of
iterations any of the loops can perform (each iteration advances `pos` by at
least one and every loop stops once `pos` passes the end, with `pos` never
exceeding `length + 2`).
-/

/-- The quoted-string skip loop of `find_matching_brace`
(`while pos < length and content[pos] != quote: ...`), also used for the
nested-backtick skip inside a `${...}` expression (with `quote` = backtick).
Returns the position of the closing quote (or a position `≥ length`). -/
def skipQuoted (c : List Char) (quote : Char) : Nat → Nat → Nat
  | 0, pos => pos
  | fuel + 1, pos =>
    if pos < c.length then
      if c.getD pos ' ' = quote then pos
      else if c.getD pos ' ' = bslashC then skipQuoted c quote fuel (pos + 2)
      else skipQuoted c quote fuel (pos + 1)
    else pos

/-- The line-comment skip loop
(`while pos < length and content[pos] != '\n': pos += 1`). -/
def skipLineComment (c : List Char) : Nat → Nat → Nat
  | 0, pos => pos
  | fuel + 1, pos =>
    if pos < c.length && !(c.getD pos ' ' = nlC) then
      skipLineComment c fuel (pos + 1)
    else pos

/-- The block-comment skip loop
(`while pos + 1 < length and not (content[pos] == '*' and content[pos+1] == '/')`). -/
def skipBlockComment (c : List Char) : Nat → Nat → Nat
  | 0, pos => pos
  | fuel + 1, pos =>
    if pos + 1 < c.length &&
       !(c.getD pos ' ' = '*' && c.getD (pos + 1) ' ' = '/') then
      skipBlockComment c fuel (pos + 1)
    else pos

/-- The `${...}`-expression skip loop of `find_matching_brace`
(`while td > 0 and pos < length: ...`): counts braces naively and skips
nested backtick literals, but is blind to string or comment contexts inside
the expression. -/
def skipTemplateExpr (c : List Char) (fuel0 : Nat) : Nat → Nat → Nat → Nat
  | 0, _, pos => pos
  | fuel + 1, td, pos =>
    if 0 < td && pos < c.length then
      let ch := c.getD pos ' '
      if ch = obrC then skipTemplateExpr c fuel0 fuel (td + 1) (pos + 1)
      else if ch = cbrC then skipTemplateExpr c fuel0 fuel (td - 1) (pos + 1)
      else if ch = btC then
        skipTemplateExpr c fuel0 fuel td (skipQuoted c btC fuel0 (pos + 1) + 1)
      else skipTemplateExpr c fuel0 fuel td (pos + 1)
    else pos

/-- The backtick template-literal skip loop of `find_matching_brace`
(`while pos < length and content[pos] != '`': ...`), with its escape and
`$`+`{` sub-cases.  The `continue` after a `${...}` expression skips the
trailing `pos += 1`, which is why the `skipTemplateExpr` result is used
directly. -/
def skipTemplate (c : List Char) (fuel0 : Nat) : Nat → Nat → Nat
  | 0, pos => pos
  | fuel + 1, pos =>
    if pos < c.length && !(c.getD pos ' ' = btC) then
      let ch := c.getD pos ' '
      if ch = bslashC then skipTemplate c fuel0 fuel (pos + 2)
      else if ch = '$' && pos + 1 < c.length && c.getD (pos + 1) ' ' = obrC then
        skipTemplate c fuel0 fuel (skipTemplateExpr c fuel0 fuel0 1 (pos + 2))
      else skipTemplate c fuel0 fuel (pos + 1)
    else pos

/-- The main `while depth > 0 and pos < length` loop of
`find_matching_brace`.  Returns the final value of `pos` (the Python
function then returns `pos - 1`). -/
def fmbLoop (c : List Char) (fuel0 : Nat) : Nat → Nat → Nat → Nat
  | 0, _, pos => pos
  | fuel + 1, depth, pos =>
    if 0 < depth && pos < c.length then
      let ch := c.getD pos ' '
      if ch = obrC then fmbLoop c fuel0 fuel (depth + 1) (pos + 1)
      else if ch = cbrC then fmbLoop c fuel0 fuel (depth - 1) (pos + 1)
      else if ch = dqC || ch = sqC then
        fmbLoop c fuel0 fuel depth (skipQuoted c ch fuel0 (pos + 1) + 1)
      else if ch = btC then
        fmbLoop c fuel0 fuel depth (skipTemplate c fuel0 fuel0 (pos + 1) + 1)
      else if ch = '/' && pos + 1 < c.length then
        if c.getD (pos + 1) ' ' = '/' then
          fmbLoop c fuel0 fuel depth (skipLineComment c fuel0 pos + 1)
        else if c.getD (pos + 1) ' ' = '*' then
          fmbLoop c fuel0 fuel depth (skipBlockComment c fuel0 (pos + 2) + 2)
        else fmbLoop c fuel0 fuel depth (pos + 1)
      else fmbLoop c fuel0 fuel depth (pos + 1)
    else pos

/-- `find_matching_brace(content, open_pos)` from swap-front-back.py
(the caller guarantees `content[open_pos] == '{'`, which the Python
function asserts). -/
def find_matching_brace (content : List Char) (open_pos : Nat) : Nat :=
  fmbLoop content (content.length + 3) (content.length + 3) 1 (open_pos + 1) - 1

/-!
## scripts/fix-cyan-tech.py

The script reads `business-card-adapter.ts`, finds `layoutCyanTech` by its
full signature (exiting with status 1 when the marker is absent), finds an
end position (first by a comment marker, then by a `registerBackLayout`
fallback plus an `rfind` dance that runs even when the fallback marker is
also absent), and splices a fixed replacement function over that range.
-/

/-- `start_marker` from fix-cyan-tech.py. -/
def cyanTechStartMarker : List Char :=
  str ("function layoutCyanTech(W: number, H: number, cfg: CardConfig, " ++
    "fs: FontSizes, ff: string): LayerV2[] \x7b")

/-- First `end_marker` from fix-cyan-tech.py. -/
def cyanTechEndMarker1 : List Char := str "// Register cyan-tech back layout"

/-- Fallback `end_marker` from fix-cyan-tech.py. -/
def cyanTechEndMarker2 : List Char := str "registerBackLayout(\"cyan-tech\""

/-- The replacement text `new_function` from fix-cyan-tech.py (verbatim). -/
def cyanTechNewFunction : List Char :=
  str (
    "function layoutCyanTech(W: number, H: number, cfg: CardConfig, fs: FontSizes, ff: string): LayerV2[] \x7b\n" ++
    "  const t = TEMPLATE_FIXED_THEMES[\"cyan-tech\"];\n" ++
    "\n" ++
    "  const layers: LayerV2[] = [];\n" ++
    "\n" ++
    "  // Background — dark charcoal\n" ++
    "  layers.push(filledRect(\x7b\n" ++
    "    name: \"Background\",\n" ++
    "    x: 0, y: 0, w: W, h: H,\n" ++
    "    fill: solidPaintHex(t.frontBg),\n" ++
    "    tags: [\"background\"],\n" ++
    "  \x7d));\n" ++
    "\n" ++
    "  // Organic S-curve cyan wave from RIGHT edge (double-lobed)\n" ++
    "  const wavePath = [\n" ++
    "    M(W, H * 0.15),\n" ++
    "    C(W * 0.78, H * 0.18, W * 0.65, H * 0.28, W * 0.60, H * 0.38),\n" ++
    "    C(W * 0.56, H * 0.46, W * 0.62, H * 0.50, W * 0.65, H * 0.54),\n" ++
    "    C(W * 0.68, H * 0.58, W * 0.58, H * 0.68, W * 0.55, H * 0.76),\n" ++
    "    C(W * 0.52, H * 0.84, W * 0.70, H * 0.92, W, H * 0.95),\n" ++
    "    L(W, H * 0.15),\n" ++
    "    Z(),\n" ++
    "  ];\n" ++
    "  layers.push(pathLayer(\x7b\n" ++
    "    name: \"Cyan Wave\",\n" ++
    "    commands: wavePath,\n" ++
    "    fill: solidPaintHex(t.accent || \"#2DB5E5\"),\n" ++
    "    tags: [\"decorative\", \"wave\"],\n" ++
    "  \x7d));\n" ++
    "\n" ++
    "  // Gear icon (cog with teeth) — upper-left area\n" ++
    "  const gearCx = Math.round(W * 0.12);\n" ++
    "  const gearCy = Math.round(H * 0.20);\n" ++
    "  const gearR = Math.round(W * 0.045);\n" ++
    "  const toothCount = 8;\n" ++
    "  const innerR = gearR * 0.7;\n" ++
    "  const gearCommands: PathCommand[] = [];\n" ++
    "  for (let i = 0; i < toothCount; i++) \x7b\n" ++
    "    const a1 = (i / toothCount) * Math.PI * 2;\n" ++
    "    const a2 = ((i + 0.3) / toothCount) * Math.PI * 2;\n" ++
    "    const a3 = ((i + 0.5) / toothCount) * Math.PI * 2;\n" ++
    "    const a4 = ((i + 0.8) / toothCount) * Math.PI * 2;\n" ++
    "    if (i === 0) gearCommands.push(M(gearCx + gearR * Math.cos(a1), gearCy + gearR * Math.sin(a1)));\n" ++
    "    gearCommands.push(L(gearCx + gearR * Math.cos(a2), gearCy + gearR * Math.sin(a2)));\n" ++
    "    gearCommands.push(L(gearCx + innerR * Math.cos(a3), gearCy + innerR * Math.sin(a3)));\n" ++
    "    gearCommands.push(L(gearCx + innerR * Math.cos(a4), gearCy + innerR * Math.sin(a4)));\n" ++
    "  \x7d\n" ++
    "  gearCommands.push(Z());\n" ++
    "  layers.push(pathLayer(\x7b\n" ++
    "    name: \"Gear Icon\",\n" ++
    "    commands: gearCommands,\n" ++
    "    fill: solidPaintHex(t.frontText),\n" ++
    "    tags: [\"logo\", \"icon\", \"gear\"],\n" ++
    "  \x7d));\n" ++
    "  // Gear center hole\n" ++
    "  layers.push(filledEllipse(\x7b\n" ++
    "    name: \"Gear Hub\",\n" ++
    "    cx: gearCx, cy: gearCy, rx: Math.round(innerR * 0.4), ry: Math.round(innerR * 0.4),\n" ++
    "    fill: solidPaintHex(t.frontBg),\n" ++
    "    tags: [\"logo\", \"icon\"],\n" ++
    "  \x7d));\n" ++
    "\n" ++
    "  // Company name — below gear\n" ++
    "  layers.push(styledText(\x7b\n" ++
    "    name: \"Company\",\n" ++
    "    x: W * 0.05, y: H * 0.32,\n" ++
    "    w: W * 0.38,\n" ++
    "    text: (cfg.company || \"CODE PRO\").toUpperCase(),\n" ++
    "    fontSize: Math.round(H * 0.055),\n" ++
    "    fontFamily: ff,\n" ++
    "    weight: 600,\n" ++
    "    color: t.frontText,\n" ++
    "    letterSpacing: 3,\n" ++
    "    tags: [\"company\"],\n" ++
    "  \x7d));\n" ++
    "\n" ++
    "  // Tagline — below company\n" ++
    "  if (cfg.tagline) \x7b\n" ++
    "    layers.push(styledText(\x7b\n" ++
    "      name: \"Tagline\",\n" ++
    "      x: W * 0.05, y: H * 0.40,\n" ++
    "      w: W * 0.38,\n" ++
    "      text: cfg.tagline.toUpperCase(),\n" ++
    "      fontSize: Math.round(H * 0.022),\n" ++
    "      fontFamily: ff,\n" ++
    "      weight: 300,\n" ++
    "      color: t.frontText,\n" ++
    "      alpha: 0.7,\n" ++
    "      letterSpacing: 5,\n" ++
    "      tags: [\"tagline\"],\n" ++
    "    \x7d));\n" ++
    "  \x7d\n" ++
    "\n" ++
    "  // Email text placed ON the wave curve\n" ++
    "  if (cfg.email) \x7b\n" ++
    "    layers.push(styledText(\x7b\n" ++
    "      name: \"Email\",\n" ++
    "      x: W * 0.55, y: H * 0.82,\n" ++
    "      w: W * 0.40,\n" ++
    "      text: cfg.email,\n" ++
    "      fontSize: Math.round(H * 0.022),\n" ++
    "      fontFamily: ff,\n" ++
    "      weight: 400,\n" ++
    "      color: \"#FFFFFF\",\n" ++
    "      tags: [\"contact-text\"],\n" ++
    "    \x7d));\n" ++
    "  \x7d\n" ++
    "\n" ++
    "  return layers;\n" ++
    "\x7d\n" ++
    "\n" ++
    ""
  )

/-- The whole text transformation performed by fix-cyan-tech.py:
`.error 1` models `exit(1)`, `.ok c` models writing `c` back to the file. -/
def fixCyanTech (content : List Char) : Except Nat (List Char) :=
  match pyFind content cyanTechStartMarker with
  | none => .error 1
  | some start_idx =>
    let end_idx : Int :=
      match pyFindFrom content cyanTechEndMarker1 start_idx with
      | some e => (e : Int)
      | none =>
        let e1 : Int :=
          match pyFindFrom content cyanTechEndMarker2 start_idx with
          | some e => (e : Int)
          | none => -1
        let r1 := pyRfindCh content nlC e1
        let r2 := pyRfindCh content nlC r1
        r2 + 1
    .ok (content.take start_idx ++ cyanTechNewFunction ++ pySliceFrom content end_idx)

/-!
## scripts/add-logo-to-templates.py — `find_function_range` / `insert_before_return`

The script splits the adapter file into lines, finds each layout function by
the substring `function <name>(`, walks a brace counter forward to locate its
`return layers;` line, and splices generated code lines in front of that
return.  When the function or the return line is not found it prints a
warning and leaves the lines untouched.
-/

/-- First index `≥ i` of a line satisfying `p` (the `enumerate` search loops
of add-logo-to-templates.py). -/
def firstLineIdx (p : List Char → Bool) : List (List Char) → Nat → Option Nat
  | [], _ => none
  | l :: rest, i => if p l then some i else firstLineIdx p rest (i + 1)

/-- The search pattern `f"function {func_name}("`. -/
def funcNamePat (func_name : List Char) : List Char :=
  str "function " ++ func_name ++ str "("

/-- The `return layers;` scan of `find_function_range`: walks from `start`
keeping a running brace depth (`Int`, since it can go negative) and returns
the first line from `start` on that strips to `return layers;` at depth
`≤ 1`.  The depth is updated with the line's brace counts *before* the
test, as in the source. -/
def findRetLineAux : List (List Char) → Nat → Int → Option Nat
  | [], _, _ => none
  | l :: rest, i, d =>
    let d' := d + (countCh obrC l : Int) - (countCh cbrC l : Int)
    if pyStrip l = str "return layers;" && d' ≤ 1 then some i
    else findRetLineAux rest (i + 1) d'

/-- `find_function_range(func_name)` from add-logo-to-templates.py:
`(start line, 'return layers;' line)`, each `none` when not found. -/
def find_function_range (lines : List (List Char)) (func_name : List Char) :
    Option Nat × Option Nat :=
  match firstLineIdx (fun l => hasSub (funcNamePat func_name) l) lines 0 with
  | none => (none, none)
  | some start => (some start, findRetLineAux (lines.drop start) start 0)

/-- `insert_before_return(func_name, code_lines)` from
add-logo-to-templates.py, as the transformation it performs on the global
`lines` list (unchanged when the function or its return line is missing). -/
def insert_before_return (lines : List (List Char)) (func_name : List Char)
    (code_lines : List (List Char)) : List (List Char) :=
  match (find_function_range lines func_name).2 with
  | none => lines
  | some ret_line => lines.take ret_line ++ code_lines ++ lines.drop ret_line

/-- The generated watermark block for one entry of `templates_no_company`
(the f-string built `code` list of add-logo-to-templates.py). -/
def watermarkCode (x_expr y_expr size_expr color_expr : List Char) :
    List (List Char) :=
  [ [],
    str "  // -- Logo watermark --",
    str "  layers.push(...buildWatermarkLogo(",
    str "    cfg.logoUrl, cfg.company || \"Co\",",
    str "    Math.round(" ++ x_expr ++ str "), Math.round(" ++ y_expr ++ str "),",
    str "    Math.round(" ++ size_expr ++ str "), " ++ color_expr ++ str ", 1.0, ff",
    str "  ));" ]


/-!
## scripts/fix-fonts.py

The script reads `business-card-adapter.ts`, splits it on `'\n'`, edits
single lines in place (replacing `FONT_STACKS.geometric` /
`FONT_STACKS.serif` references at hard-coded 1-indexed line numbers and at
lines matching the monogram `sansFont` / `serifFont` patterns), and writes
back `'\n'.join(lines)`.
-/

/-- `front_font_lines` from fix-fonts.py. -/
def front_font_lines : List Nat :=
  [672, 1191, 1398, 1598, 1814, 2030, 2314, 2521, 2746, 2964]

/-- `back_font_lines` from fix-fonts.py. -/
def back_font_lines : List Nat :=
  [714, 1046, 1326, 1473, 1716, 1926, 2155, 2408, 2630, 2902, 3102]

/-- `front_ff_delete_lines` from fix-fonts.py. -/
def front_ff_delete_lines : List Nat := [3175, 3334, 3499, 3647, 3808, 3938]

/-- `back_ff_lines` from fix-fonts.py. -/
def back_ff_lines : List Nat := [3264, 3424, 3591, 3763, 3894, 4023]

/-- The substring `FONT_STACKS.geometric`. -/
def geoPat : List Char := str "FONT_STACKS.geometric"

/-- One step of the first fix-fonts loop (`for i, line in enumerate(lines)`),
acting on the current line list at index `i` (`line_num = i + 1`). -/
def fixFontsStep1 (l : List (List Char)) (i : Nat) : List (List Char) :=
  let ln := i + 1
  let cur := l.getD i []
  if front_font_lines.contains ln then
    l.set i (pyReplace geoPat (str "ff") cur)
  else if back_font_lines.contains ln then
    l.set i (pyReplace geoPat (str "cfg.fontFamily") cur)
  else if front_ff_delete_lines.contains ln then
    if hasSub (str "const ff = FONT_STACKS.geometric") cur then l.set i [] else l
  else if back_ff_lines.contains ln then
    l.set i (pyReplace geoPat (str "cfg.fontFamily") cur)
  else l

/-- The `is_back` look-back of fix-fonts.py: does any of the up-to-15 lines
before `i` contain `registerBackLayout` (`range(max(0, i-15), i)`)? -/
def isBackAt (l : List (List Char)) (i : Nat) : Bool :=
  (List.range i).any fun j =>
    i ≤ j + 15 && hasSub (str "registerBackLayout") (l.getD j [])

/-- One step of the monogram `sansFont` loop of fix-fonts.py. -/
def fixFontsStep2 (l : List (List Char)) (i : Nat) : List (List Char) :=
  let cur := l.getD i []
  if hasSub (str "const sansFont = FONT_STACKS.geometric") cur then
    if isBackAt l i then l.set i (pyReplace geoPat (str "cfg.fontFamily") cur)
    else l.set i (pyReplace geoPat (str "ff") cur)
  else l

/-- One step of the monogram `serifFont` loop of fix-fonts.py (the front
case is deliberately left alone by the script). -/
def fixFontsStep3 (l : List (List Char)) (i : Nat) : List (List Char) :=
  let cur := l.getD i []
  if hasSub (str "const serifFont = FONT_STACKS.serif") cur then
    if isBackAt l i then
      l.set i (pyReplace (str "FONT_STACKS.serif") (str "cfg.fontFamily") cur)
    else l
  else l

/-- The three line-edit loops of fix-fonts.py, in source order. -/
def fixFontsLines (l : List (List Char)) : List (List Char) :=
  let l1 := (List.range l.length).foldl fixFontsStep1 l
  let l2 := (List.range l1.length).foldl fixFontsStep2 l1
  (List.range l2.length).foldl fixFontsStep3 l2

/-- fix-fonts.py end to end on the file content: split on `'\n'`, edit the
lines, join with `'\n'`. -/
def fixFonts (content : List Char) : List Char :=
  joinNL (fixFontsLines (splitNL content))

/-!
## scripts/fix-ff-errors.py

The script `readlines()`s the adapter file, rewrites `\bff\b` to
`cfg.fontFamily` on 17 hard-coded 1-indexed lines (only assigning when the
substitution changed the line), blanks line 3950 when it contains
`const ff = ff`, and `writelines()`s the result — with no bounds checks, so
a short file raises `IndexError` before the write.
-/

/-- `ff_error_lines` from fix-ff-errors.py. -/
def ff_error_lines : List Nat :=
  [3292, 3298, 3308, 3322, 3329,
   3476, 3482, 3494,
   3626, 3632, 3642,
   3784, 3790, 3802,
   3915, 3921, 3932]

/-- The `for line_num in ff_error_lines` loop of fix-ff-errors.py:
`lines[idx]` raises when out of range; the line is reassigned only when
`re.sub` changed it. -/
def ffErrorsFold : List Nat → List (List Char) → Except PyError (List (List Char))
  | [], l => .ok l
  | ln :: rest, l =>
    match pyGet l (ln - 1) with
    | .error e => .error e
    | .ok old =>
      ffErrorsFold rest
        (if resubFf old ≠ old then l.set (ln - 1) (resubFf old) else l)

/-- fix-ff-errors.py end to end on the line list: the loop, then the
line-3950 fix, then the write (`.ok` of the final lines). -/
def fixFfErrors (l : List (List Char)) : Except PyError (List (List Char)) :=
  match ffErrorsFold ff_error_lines l with
  | .error e => .error e
  | .ok l1 =>
    match pyGet l1 (3950 - 1) with
    | .error e => .error e
    | .ok line3950 =>
      .ok (if hasSub (str "const ff = ff") line3950 then l1.set (3950 - 1) [] else l1)

/-!
## scripts/swap-front-back.py — `find_front_function` and the files of `main`
-/

/-- The result record of `find_front_function` (the dict the Python function
returns). -/
structure FrontFn where
  start : Nat
  stop : Nat
  body : List Char
  full : List Char
  brace_start : Nat
  brace_end : Nat
  deriving DecidableEq, Repr

/-- `find_front_function(content, func_name)` from swap-front-back.py: the
regex `rf'function {func_name}\('` is a literal substring search; `none`
models the `return None` (after printing an error) when the function or its
opening brace is not found. -/
def find_front_function (content : List Char) (func_name : List Char) :
    Option FrontFn :=
  match pyFind content (funcNamePat func_name) with
  | none => none
  | some func_start =>
    let match_end := func_start + (funcNamePat func_name).length
    match pyFindFrom content [obrC] match_end with
    | none => none
    | some brace_pos =>
      let brace_close := find_matching_brace content brace_pos
      some { start := func_start
             stop := brace_close + 1
             body := (content.take brace_close).drop (brace_pos + 1)
             full := (content.take (brace_close + 1)).drop func_start
             brace_start := brace_pos
             brace_end := brace_close }

/-- `main()` of swap-front-back.py derives both file paths from the script's
own location; the repository root (`os.path.dirname(os.path.dirname(
os.path.abspath(__file__)))`) is modelled by the abstract constant `root`. -/
def root : List Char := str "ROOT"

/-- `os.path.join` of two components (separator made concrete as `/`). -/
def pjoin (a b : List Char) : List Char := a ++ '/' :: b

/-- `adapter_path` from swap-front-back.py's `main`. -/
def swapAdapterPath : List Char :=
  pjoin (pjoin (pjoin (pjoin root (str "src")) (str "lib")) (str "editor"))
    (str "business-card-adapter.ts")

/-- `helpers_path` from swap-front-back.py's `main`. -/
def swapHelpersPath : List Char :=
  pjoin (pjoin (pjoin (pjoin root (str "src")) (str "lib")) (str "editor"))
    (str "card-template-helpers.ts")

/-- The files swap-front-back.py's `main` opens for reading, in order. -/
def swapReads : List (List Char) := [swapAdapterPath, swapHelpersPath]

/-- The files swap-front-back.py's `main` opens for writing, in order. -/
def swapWrites : List (List Char) := [swapHelpersPath, swapAdapterPath]

/-- The single file path hard-coded in fix-fonts.py (read and written). -/
def fixFontsPath : List Char :=
  str "d:\\dramac-ai-suite\\src\\lib\\editor\\business-card-adapter.ts"

/-- The files fix-fonts.py opens for reading. -/
def fixFontsReads : List (List Char) := [fixFontsPath]

/-- The files fix-fonts.py opens for writing. -/
def fixFontsWrites : List (List Char) := [fixFontsPath]

/-!
## scripts/analyze-business-cards.py

The script parses `.env.local`, exits with status 1 when
`ANTHROPIC_API_KEY` is missing (or empty — `if not api_key`), then loops
over a hard-coded image list: for each image it opens the image file
*outside* the `try`, and inside the `try` calls the vision API and writes a
per-image Markdown report.  The filesystem and the API are modelled as
oracles; the run result is the list of I/O events together with the outcome
(normal finish, `sys.exit(1)`, or an uncaught exception).
-/

/-- Python `dict` assignment `env[key] = value` on an association list
(replace in place, else append). -/
def dictSet (k v : List Char) :
    List (List Char × List Char) → List (List Char × List Char)
  | [] => [(k, v)]
  | (k', v') :: rest =>
    if k' = k then (k, v) :: rest else (k', v') :: dictSet k v rest

/-- `load_env()` from analyze-business-cards.py, applied to the lines of
`.env.local`: strip each line; when it is nonempty, does not start with
`#`, and contains `=`, split at the first `=`, strip both halves and set
the entry into the dict (scanning forward, so a later duplicate key
overwrites an earlier one, as with a Python dict). -/
def load_env (lines : List (List Char)) : List (List Char × List Char) :=
  lines.foldl
    (fun env line =>
      let s := pyStrip line
      if !s.isEmpty && !startsWithCh '#' s && hasSub [Char.ofNat 61] s then
        let p := splitFirst (Char.ofNat 61) s
        dictSet (pyStrip p.1) (pyStrip p.2) env
      else env)
    []

/-- Python `env.get(k)` on the association list built by `load_env`. -/
def envGet (k : List Char) (d : List (List Char × List Char)) :
    Option (List Char) :=
  (d.find? fun e => e.1 = k).map (·.2)

/-- One I/O event of an analyze-business-cards.py run. -/
inductive Event where
  | readFile (path : List Char)
  | apiCall (filename : List Char)
  | writeFile (path : List Char)
  | printError (msg : List Char)
  deriving DecidableEq, Repr

/-- The outcome of a run. -/
inductive Outcome where
  | finished
  | exitedOne
  | crashed (err : List Char)
  deriving DecidableEq, Repr

/-- The filesystem/API oracles of a run: what `open(filepath, 'rb')`
returns (or raises) for an image path, and what the vision API returns (or
raises) for given image data. -/
structure Oracles where
  loadImage : List Char → Except (List Char) (List Char)
  callApi : List Char → Except (List Char) (List Char)

/-- `base_dir` of analyze-business-cards.py (relative to the abstract
repository `root`). -/
def cardsBaseDir : List Char := pjoin root (str "business-card-examples")

/-- `output_dir` of analyze-business-cards.py. -/
def cardsOutputDir : List Char := pjoin cardsBaseDir (str "analysis")

/-- `env_path` of analyze-business-cards.py's `load_env`. -/
def cardsEnvPath : List Char := pjoin root (str ".env.local")

/-- The hard-coded `images` list of analyze-business-cards.py. -/
def cardsImages : List (List Char) :=
  [ str "d470b54b4667bbb67204e858d6f0a01f.jpg",
    str "d528f0b618c11009c08bd2a93beb890e.jpg",
    str "dd0acc18c0824cdca8a1969e711c4e4e.jpg",
    str "Digital Marketing Agency Visiting Card.jpg",
    str "eadf9c427d539e35f32ac013c0d85254.jpg",
    str "ed5aed70cf66b85baf0a7a9af5b80f2c.jpg",
    str "f7aaa659853a816e36f98a2513b16387.jpg",
    str "f8d2061b39a68b3adb11ece796042007.jpg",
    str "Message Us on WhatsApp for Custom Design Orders!.jpg" ]

/-- `os.path.splitext(filename)[0]` for a plain file name: everything
before the last dot (the whole name when there is no dot). -/
def stemOf (fn : List Char) : List Char :=
  match lastIdx '.' fn with
  | some j => fn.take j
  | none => fn

/-- The report path `os.path.join(output_dir, f"{splitext(filename)[0]}.md")`. -/
def cardsOutputPath (fn : List Char) : List Char :=
  pjoin cardsOutputDir (stemOf fn ++ str ".md")

/-- The image path `os.path.join(base_dir, filename)`. -/
def cardsImagePath (fn : List Char) : List Char := pjoin cardsBaseDir fn

/-- The per-image loop of analyze-business-cards.py.  The image `open` is
outside the `try`, so a load failure stops the whole loop (second
component `some err`); an API failure inside the `try` is caught, printed,
and the loop continues with the next image. -/
def runImages (o : Oracles) : List (List Char) → List Event × Option (List Char)
  | [] => ([], none)
  | fn :: rest =>
    match o.loadImage (cardsImagePath fn) with
    | .error e => ([], some e)
    | .ok data =>
      let evs :=
        match o.callApi data with
        | .ok _analysis =>
          [Event.readFile (cardsImagePath fn), Event.apiCall fn,
           Event.writeFile (cardsOutputPath fn)]
        | .error e =>
          [Event.readFile (cardsImagePath fn), Event.apiCall fn,
           Event.printError e]
      let r := runImages o rest
      (evs ++ r.1, r.2)

/-- analyze-business-cards.py end to end: parse the env lines, exit with
status 1 when `ANTHROPIC_API_KEY` is missing or empty (`if not api_key`),
otherwise run the image loop. -/
def analyzeRun (envLines : List (List Char)) (o : Oracles) :
    List Event × Outcome :=
  match envGet (str "ANTHROPIC_API_KEY") (load_env envLines) with
  | none => ([Event.readFile cardsEnvPath], .exitedOne)
  | some v =>
    if v.isEmpty then ([Event.readFile cardsEnvPath], .exitedOne)
    else
      let r := runImages o cardsImages
      (Event.readFile cardsEnvPath :: r.1,
       match r.2 with
       | some e => .crashed e
       | none => .finished)

/-- The paths analyze-business-cards.py opens for reading during a full
run: `.env.local` and each image. -/
def cardsReads : List (List Char) :=
  cardsEnvPath :: cardsImages.map cardsImagePath

/-- The paths analyze-business-cards.py opens for writing during a full
run: one Markdown report per image. -/
def cardsWrites : List (List Char) := cardsImages.map cardsOutputPath

/-!
## scripts/analyze-6ed0.py — white region detection

For each scanned row the script collects the x positions whose R, G and B
values all exceed 200, and prints either `white x=first-last` (plus a
count) or `NO white pixels`.
-/

/-- A pixel as its three channel values. -/
abbrev Pixel := Nat × Nat × Nat

/-- The white-pixel collection loop (`for px in range(w)` with
`if r > 200 and g > 200 and b > 200: whites.append(px)`), with `i` the
index of the first pixel of `row`. -/
def whiteIdxAux : List Pixel → Nat → List Nat
  | [], _ => []
  | p :: rest, i =>
    if 200 < p.1 && 200 < p.2.1 && 200 < p.2.2 then
      i :: whiteIdxAux rest (i + 1)
    else whiteIdxAux rest (i + 1)

/-- The last element of `j :: rest` (Python `whites[-1]`). -/
def lastD : List Nat → Nat → Nat
  | [], d => d
  | x :: rest, _ => lastD rest x

/-- What the script prints for one row: `some (first, last, count)`
(`whites[0]`, `whites[-1]`, `len(whites)`) when any pixel qualified,
`none` (the `NO white pixels` report) otherwise. -/
def whiteRow (row : List Pixel) : Option (Nat × Nat × Nat) :=
  match whiteIdxAux row 0 with
  | [] => none
  | j :: rest => some (j, lastD rest j, (j :: rest).length)

/-!
## Lemmas about the Python string primitives
-/

theorem pyFindAux_eq_none {pat : List Char} :
    ∀ {l : List Char} {i : Nat}, pyFindAux pat l i = none ↔ hasSub pat l = false := by
  intro l
  induction l with
  | nil =>
    intro i
    by_cases hp : pat.isEmpty <;> simp [pyFindAux, hasSub, hp]
  | cons x rest ih =>
    intro i
    by_cases h : pat.isPrefixOf (x :: rest)
    · simp [pyFindAux, hasSub, h]
    · simp [pyFindAux, hasSub, h, ih]

theorem pyFind_eq_none {hay pat : List Char} :
    pyFind hay pat = none ↔ hasSub pat hay = false := pyFindAux_eq_none

theorem firstLineIdx_eq_none {p : List Char → Bool} :
    ∀ {lines : List (List Char)} {i : Nat},
      (∀ l ∈ lines, p l = false) → firstLineIdx p lines i = none := by
  intro lines
  induction lines with
  | nil => intro i _; rfl
  | cons l rest ih =>
    intro i h
    have hl := h l (by simp)
    simp [firstLineIdx, hl]
    exact ih fun l' hl' => h l' (by simp [hl'])

theorem splitNL_ne_nil : ∀ c : List Char, splitNL c ≠ [] := by
  intro c
  cases c with
  | nil => simp [splitNL]
  | cons x rest =>
    by_cases h : x = nlC
    · simp [splitNL, h]
    · simp only [splitNL, if_neg h]
      cases hs : splitNL rest with
      | nil => simp
      | cons a t => simp

theorem joinNL_cons (x : List Char) (y : List Char) (t : List (List Char)) :
    joinNL (x :: y :: t) = x ++ nlC :: joinNL (y :: t) := rfl

theorem joinNL_splitNL : ∀ c : List Char, joinNL (splitNL c) = c := by
  intro c
  induction c with
  | nil => rfl
  | cons x rest ih =>
    by_cases h : x = nlC
    · subst h
      simp only [splitNL, if_pos rfl]
      cases hs : splitNL rest with
      | nil => exact absurd hs (splitNL_ne_nil rest)
      | cons a t =>
        rw [hs] at ih
        simp [joinNL_cons, ih]
    · simp only [splitNL, if_neg h]
      cases hs : splitNL rest with
      | nil => exact absurd hs (splitNL_ne_nil rest)
      | cons a t =>
        rw [hs] at ih
        cases t with
        | nil => simpa [joinNL] using ih
        | cons b t' => simpa [joinNL_cons, joinNL] using ih

theorem splitNL_no_nl : ∀ {x : List Char}, nlC ∉ x → splitNL x = [x] := by
  intro x
  induction x with
  | nil => intro _; rfl
  | cons a rest ih =>
    intro h
    have ha : a ≠ nlC := fun hc => h (by simp [hc])
    have hr : nlC ∉ rest := fun hc => h (by simp [hc])
    simp [splitNL, ha, ih hr]

theorem splitNL_append_nl : ∀ {x r : List Char}, nlC ∉ x →
    splitNL (x ++ nlC :: r) = x :: splitNL r := by
  intro x
  induction x with
  | nil => intro r _; simp [splitNL]
  | cons a rest ih =>
    intro r h
    have ha : a ≠ nlC := fun hc => h (by simp [hc])
    have hr : nlC ∉ rest := fun hc => h (by simp [hc])
    show splitNL (a :: (rest ++ nlC :: r)) = (a :: rest) :: splitNL r
    simp only [splitNL, if_neg ha]
    rw [ih hr]

theorem splitNL_joinNL : ∀ {xs : List (List Char)}, xs ≠ [] →
    (∀ x ∈ xs, nlC ∉ x) → splitNL (joinNL xs) = xs := by
  intro xs
  induction xs with
  | nil => intro h _; exact absurd rfl h
  | cons x rest ih =>
    intro _ h
    cases rest with
    | nil => exact splitNL_no_nl (h x (by simp))
    | cons y t =>
      rw [joinNL_cons, splitNL_append_nl (h x (by simp))]
      rw [ih (by simp) fun z hz => h z (by simp [hz])]

theorem replaceAllF_not_mem {pat repl : List Char} {ch : Char}
    (hr : ch ∉ repl) :
    ∀ (fuel : Nat) {xs : List Char}, ch ∉ xs →
      ch ∉ replaceAllF pat repl fuel xs := by
  intro fuel
  induction fuel with
  | zero => intro xs h; simpa [replaceAllF] using h
  | succ fuel ih =>
    intro xs h
    cases xs with
    | nil => simp [replaceAllF]
    | cons x rest =>
      by_cases hp : (!pat.isEmpty && pat.isPrefixOf (x :: rest)) = true
      · simp only [replaceAllF, if_pos hp, List.mem_append]
        rintro (hc | hc)
        · exact hr hc
        · exact ih (fun hm => h (List.mem_of_mem_drop hm)) hc
      · simp only [replaceAllF, if_neg hp, List.mem_cons]
        rintro (hc | hc)
        · exact h (by simp [hc])
        · exact ih (fun hm => h (by simp [hm])) hc

theorem pyReplace_not_mem {pat repl xs : List Char} {ch : Char}
    (hr : ch ∉ repl) (hx : ch ∉ xs) : ch ∉ pyReplace pat repl xs :=
  replaceAllF_not_mem hr xs.length hx

theorem replaceAllF_id_of_not_hasSub {pat repl : List Char} :
    ∀ (fuel : Nat) {xs : List Char}, hasSub pat xs = false →
      replaceAllF pat repl fuel xs = xs := by
  intro fuel
  induction fuel with
  | zero => intro xs _; rfl
  | succ fuel ih =>
    intro xs h
    cases xs with
    | nil => rfl
    | cons x rest =>
      simp only [hasSub, Bool.or_eq_false_iff] at h
      simp [replaceAllF, h.1, ih h.2]

theorem pyReplace_id_of_not_hasSub {pat repl xs : List Char}
    (h : hasSub pat xs = false) : pyReplace pat repl xs = xs :=
  replaceAllF_id_of_not_hasSub xs.length h

theorem list_set_getD_self {α : Type} {d : α} :
    ∀ (l : List α) (i : Nat), l.set i (l.getD i d) = l := by
  intro l
  induction l with
  | nil => intro i; rfl
  | cons x rest ih =>
    intro i
    cases i with
    | zero => simp [List.set, List.getD]
    | succ i => simpa [List.set, List.getD] using ih i

theorem list_mem_set {α : Type} :
    ∀ {l : List α} {i : Nat} {a x : α}, x ∈ l.set i a → x = a ∨ x ∈ l := by
  intro l
  induction l with
  | nil => intro i a x h; simp [List.set] at h
  | cons y rest ih =>
    intro i a x h
    cases i with
    | zero =>
      rcases List.mem_cons.mp h with h | h
      · exact Or.inl h
      · exact Or.inr (by simp [h])
    | succ i =>
      rcases List.mem_cons.mp h with h | h
      · exact Or.inr (by simp [h])
      · rcases ih h with h | h
        · exact Or.inl h
        · exact Or.inr (by simp [h])

theorem foldl_id_of_fixed {α β : Type} {f : α → β → α} :
    ∀ {bs : List β} {a : α}, (∀ b ∈ bs, f a b = a) → bs.foldl f a = a := by
  intro bs
  induction bs with
  | nil => intro a _; rfl
  | cons b rest ih =>
    intro a h
    simp only [List.foldl_cons, h b (by simp)]
    exact ih fun b' hb' => h b' (by simp [hb'])

theorem foldl_invariant {α β : Type} {f : α → β → α} {P : α → Prop} :
    ∀ {bs : List β} {a : α}, (∀ acc b, P acc → P (f acc b)) → P a →
      P (bs.foldl f a) := by
  intro bs
  induction bs with
  | nil => intro a _ h; exact h
  | cons b rest ih =>
    intro a hf h
    exact ih hf (hf a b h)

theorem pyGet_eq_ok {α : Type} (d : α) :
    ∀ (l : List α) (i : Nat), i < l.length → pyGet l i = .ok (l.getD i d) := by
  intro l
  induction l with
  | nil => intro i h; simp at h
  | cons x t ih =>
    intro i h
    cases i with
    | zero => simp [pyGet, List.getD]
    | succ i => simpa [pyGet, List.getD] using ih i (by simpa using h)

theorem pyGet_eq_error {α : Type} :
    ∀ (l : List α) (i : Nat), l.length ≤ i → pyGet l i = .error .indexError := by
  intro l
  induction l with
  | nil => intro i _; rfl
  | cons x t ih =>
    intro i h
    cases i with
    | zero => simp at h
    | succ i => simpa [pyGet] using ih i (by simpa using h)

theorem getD_default_or_mem {α : Type} (d : α) :
    ∀ (l : List α) (i : Nat), l.getD i d = d ∨ l.getD i d ∈ l := by
  intro l
  induction l with
  | nil => intro i; simp [List.getD]
  | cons x t ih =>
    intro i
    cases i with
    | zero => simp [List.getD]
    | succ i =>
      rcases ih i with h | h
      · exact Or.inl (by simpa [List.getD] using h)
      · exact Or.inr (by simp [List.getD]; right; simpa [List.getD] using h)

theorem mem_splitNL_no_nl : ∀ (c : List Char), ∀ x ∈ splitNL c, nlC ∉ x := by
  intro c
  induction c with
  | nil => intro x hx; simp [splitNL] at hx; simp [hx]
  | cons a rest ih =>
    intro x hx
    by_cases h : a = nlC
    · simp only [splitNL, if_pos h] at hx
      rcases List.mem_cons.mp hx with hx | hx
      · simp [hx]
      · exact ih x hx
    · simp only [splitNL, if_neg h] at hx
      cases hs : splitNL rest with
      | nil => exact absurd hs (splitNL_ne_nil rest)
      | cons b t =>
        rw [hs] at hx
        rcases List.mem_cons.mp hx with hx | hx
        · subst hx
          intro hc
          rcases List.mem_cons.mp hc with hc | hc
          · exact h hc.symm
          · exact ih b (by simp [hs]) hc
        · exact ih x (by simp [hs, hx])

/-!
### Length and newline-freedom through the fix-fonts loops
-/

theorem no_nl_set_of {l : List (List Char)} {i : Nat} {v : List Char}
    (h : ∀ x ∈ l, nlC ∉ x) (hv : nlC ∉ v) : ∀ x ∈ l.set i v, nlC ∉ x := by
  intro x hx
  rcases list_mem_set hx with hx | hx
  · exact hx ▸ hv
  · exact h x hx

theorem fixFontsStep1_length (l : List (List Char)) (i : Nat) :
    (fixFontsStep1 l i).length = l.length := by
  simp only [fixFontsStep1]
  split_ifs <;> simp

theorem fixFontsStep2_length (l : List (List Char)) (i : Nat) :
    (fixFontsStep2 l i).length = l.length := by
  simp only [fixFontsStep2]
  split_ifs <;> simp

theorem fixFontsStep3_length (l : List (List Char)) (i : Nat) :
    (fixFontsStep3 l i).length = l.length := by
  simp only [fixFontsStep3]
  split_ifs <;> simp

theorem fixFontsLines_length (l : List (List Char)) :
    (fixFontsLines l).length = l.length := by
  unfold fixFontsLines
  have gen : ∀ (step : List (List Char) → Nat → List (List Char)),
      (∀ (a : List (List Char)) (i : Nat), (step a i).length = a.length) →
      ∀ (idxs : List Nat) (a : List (List Char)),
        (idxs.foldl step a).length = a.length := by
    intro step hstep idxs
    induction idxs with
    | nil => intro a; rfl
    | cons i rest ih =>
      intro a
      rw [List.foldl_cons, ih, hstep]
  rw [gen fixFontsStep3 fixFontsStep3_length,
    gen fixFontsStep2 fixFontsStep2_length,
    gen fixFontsStep1 fixFontsStep1_length]

theorem fixFontsStep1_no_nl {l : List (List Char)} {i : Nat}
    (h : ∀ x ∈ l, nlC ∉ x) : ∀ x ∈ fixFontsStep1 l i, nlC ∉ x := by
  have hcur : nlC ∉ l.getD i [] := by
    rcases getD_default_or_mem [] l i with hd | hd
    · rw [hd]; simp
    · exact h _ hd
  intro x hx
  simp only [fixFontsStep1] at hx
  split_ifs at hx <;>
    first
      | exact h x hx
      | exact no_nl_set_of h (pyReplace_not_mem (by decide) hcur) x hx
      | exact no_nl_set_of h (by simp) x hx

theorem fixFontsStep2_no_nl {l : List (List Char)} {i : Nat}
    (h : ∀ x ∈ l, nlC ∉ x) : ∀ x ∈ fixFontsStep2 l i, nlC ∉ x := by
  have hcur : nlC ∉ l.getD i [] := by
    rcases getD_default_or_mem [] l i with hd | hd
    · rw [hd]; simp
    · exact h _ hd
  intro x hx
  simp only [fixFontsStep2] at hx
  split_ifs at hx <;>
    first
      | exact h x hx
      | exact no_nl_set_of h (pyReplace_not_mem (by decide) hcur) x hx

theorem fixFontsStep3_no_nl {l : List (List Char)} {i : Nat}
    (h : ∀ x ∈ l, nlC ∉ x) : ∀ x ∈ fixFontsStep3 l i, nlC ∉ x := by
  have hcur : nlC ∉ l.getD i [] := by
    rcases getD_default_or_mem [] l i with hd | hd
    · rw [hd]; simp
    · exact h _ hd
  intro x hx
  simp only [fixFontsStep3] at hx
  split_ifs at hx <;>
    first
      | exact h x hx
      | exact no_nl_set_of h (pyReplace_not_mem (by decide) hcur) x hx

theorem fixFontsLines_no_nl {l : List (List Char)}
    (h : ∀ x ∈ l, nlC ∉ x) : ∀ x ∈ fixFontsLines l, nlC ∉ x := by
  unfold fixFontsLines
  have gen : ∀ (step : List (List Char) → Nat → List (List Char)),
      (∀ (a : List (List Char)) (i : Nat),
        (∀ x ∈ a, nlC ∉ x) → ∀ x ∈ step a i, nlC ∉ x) →
      ∀ (idxs : List Nat) (a : List (List Char)),
        (∀ x ∈ a, nlC ∉ x) → ∀ x ∈ idxs.foldl step a, nlC ∉ x := by
    intro step hstep idxs
    induction idxs with
    | nil => intro a ha; exact ha
    | cons i rest ih =>
      intro a ha
      exact ih (step a i) (hstep a i ha)
  exact gen fixFontsStep3 (fun a i => fixFontsStep3_no_nl) _ _
    (gen fixFontsStep2 (fun a i => fixFontsStep2_no_nl) _ _
      (gen fixFontsStep1 (fun a i => fixFontsStep1_no_nl) _ _ h))

/-!
### The fix-ff-errors fold
-/

theorem ffErrorsFold_cons_ok {ln : Nat} {rest : List Nat}
    {l : List (List Char)} (hlt : ln - 1 < l.length) :
    ffErrorsFold (ln :: rest) l =
      ffErrorsFold rest
        (if resubFf (l.getD (ln - 1) []) ≠ l.getD (ln - 1) [] then
          l.set (ln - 1) (resubFf (l.getD (ln - 1) [])) else l) := by
  simp only [ffErrorsFold, pyGet_eq_ok [] l (ln - 1) hlt]

theorem ffErrorsFold_ok :
    ∀ (lns : List Nat) (l : List (List Char)),
      (∀ ln ∈ lns, ln - 1 < l.length) →
      ∃ l', ffErrorsFold lns l = .ok l' ∧ l'.length = l.length := by
  intro lns
  induction lns with
  | nil => intro l _; exact ⟨l, rfl, rfl⟩
  | cons ln rest ih =>
    intro l h
    have hlt : ln - 1 < l.length := h ln (by simp)
    rw [ffErrorsFold_cons_ok hlt]
    set l' := if resubFf (l.getD (ln - 1) []) ≠ l.getD (ln - 1) [] then
        l.set (ln - 1) (resubFf (l.getD (ln - 1) [])) else l with hl'
    have hlen : l'.length = l.length := by
      rw [hl']; split <;> simp
    obtain ⟨l'', hok, hlen'⟩ := ih l' (by
      intro x hx
      rw [hlen]
      exact h x (by simp [hx]))
    exact ⟨l'', hok, by rw [hlen', hlen]⟩

theorem ffErrorsFold_error :
    ∀ (lns : List Nat) (l : List (List Char)),
      (∃ ln ∈ lns, l.length ≤ ln - 1) →
      ffErrorsFold lns l = .error .indexError := by
  intro lns
  induction lns with
  | nil => intro l h; simp at h
  | cons ln rest ih =>
    intro l h
    by_cases hlt : ln - 1 < l.length
    · rw [ffErrorsFold_cons_ok hlt]
      set l' := if resubFf (l.getD (ln - 1) []) ≠ l.getD (ln - 1) [] then
          l.set (ln - 1) (resubFf (l.getD (ln - 1) [])) else l with hl'
      have hlen : l'.length = l.length := by
        rw [hl']; split <;> simp
      rcases h with ⟨m, hm, hle⟩
      rcases List.mem_cons.mp hm with hm | hm
      · subst hm; omega
      · exact ih l' ⟨m, hm, by rw [hlen]; exact hle⟩
    · have hget := pyGet_eq_error l (ln - 1) (by omega)
      simp only [ffErrorsFold, hget]

theorem ffErrorsFold_id :
    ∀ (lns : List Nat) (l : List (List Char)),
      (∀ ln ∈ lns, resubFf (l.getD (ln - 1) []) = l.getD (ln - 1) []) →
      (∀ ln ∈ lns, ln - 1 < l.length) →
      ffErrorsFold lns l = .ok l := by
  intro lns
  induction lns with
  | nil => intro l _ _; rfl
  | cons ln rest ih =>
    intro l hid h
    have hlt : ln - 1 < l.length := h ln (by simp)
    rw [ffErrorsFold_cons_ok hlt]
    have heq : resubFf (l.getD (ln - 1) []) = l.getD (ln - 1) [] :=
      hid ln (by simp)
    rw [if_neg fun hne => hne heq]
    exact ih l (fun m hm => hid m (by simp [hm])) (fun m hm => h m (by simp [hm]))

/-!
### The analyze-business-cards image loop
-/

/-- The events one image contributes when its load succeeds: the file read,
exactly one API call, then either the report write or the printed error. -/
def imageTrace (o : Oracles) (fn : List Char) : List Event :=
  match o.loadImage (cardsImagePath fn) with
  | .error _ => []
  | .ok data =>
    match o.callApi data with
    | .ok _ =>
      [Event.readFile (cardsImagePath fn), Event.apiCall fn,
       Event.writeFile (cardsOutputPath fn)]
    | .error e =>
      [Event.readFile (cardsImagePath fn), Event.apiCall fn,
       Event.printError e]

/-- Concatenated per-image traces. -/
def tracesOf (o : Oracles) : List (List Char) → List Event
  | [] => []
  | fn :: rest => imageTrace o fn ++ tracesOf o rest

/-- Is an event an API call? -/
def isApiEvent : Event → Bool
  | .apiCall _ => true
  | _ => false

/-- Is an event a report write? -/
def isWriteEvent : Event → Bool
  | .writeFile _ => true
  | _ => false

theorem countP_apiEvent_imageTrace {o : Oracles} {fn : List Char}
    (h : (o.loadImage (cardsImagePath fn)).isOk = true) :
    (imageTrace o fn).countP isApiEvent = 1 := by
  unfold imageTrace
  cases hl : o.loadImage (cardsImagePath fn) with
  | error e => rw [hl] at h; simp [Except.isOk, Except.toBool] at h
  | ok data =>
    cases ha : o.callApi data with
    | ok a => simp [ha, List.countP_cons, isApiEvent]
    | error e => simp [ha, List.countP_cons, isApiEvent]

theorem runImages_ok :
    ∀ {imgs : List (List Char)} {o : Oracles},
      (∀ fn ∈ imgs, (o.loadImage (cardsImagePath fn)).isOk = true) →
      runImages o imgs = (tracesOf o imgs, none) := by
  intro imgs
  induction imgs with
  | nil => intro o _; rfl
  | cons fn rest ih =>
    intro o h
    have hfn := h fn (by simp)
    cases hl : o.loadImage (cardsImagePath fn) with
    | error e => rw [hl] at hfn; simp [Except.isOk, Except.toBool] at hfn
    | ok data =>
      have hrest := ih fun fn' hfn' => h fn' (by simp [hfn'])
      cases ha : o.callApi data with
      | ok a => simp [runImages, hl, ha, hrest, tracesOf, imageTrace]
      | error e => simp [runImages, hl, ha, hrest, tracesOf, imageTrace]

theorem countP_apiEvent_tracesOf :
    ∀ {imgs : List (List Char)} {o : Oracles},
      (∀ fn ∈ imgs, (o.loadImage (cardsImagePath fn)).isOk = true) →
      (tracesOf o imgs).countP isApiEvent = imgs.length := by
  intro imgs
  induction imgs with
  | nil => intro o _; rfl
  | cons fn rest ih =>
    intro o h
    rw [tracesOf, List.countP_append,
      countP_apiEvent_imageTrace (h fn (by simp)),
      ih fun fn' hfn' => h fn' (by simp [hfn'])]
    simp [Nat.add_comm]

theorem runImages_load_error {o : Oracles} {fn : List Char}
    {rest : List (List Char)} {e : List Char}
    (h : o.loadImage (cardsImagePath fn) = .error e) :
    runImages o (fn :: rest) = ([], some e) := by
  simp [runImages, h]

/-!
### The analyze-6ed0 white-pixel scan
-/

/-- The white-pixel predicate of analyze-6ed0.py: all three channels
strictly above 200. -/
def isWhitePix (p : Pixel) : Bool :=
  200 < p.1 && 200 < p.2.1 && 200 < p.2.2

theorem isWhitePix_iff {p : Pixel} :
    isWhitePix p = true ↔ 200 < p.1 ∧ 200 < p.2.1 ∧ 200 < p.2.2 := by
  simp [isWhitePix, and_assoc]

theorem whiteIdxAux_cons (p : Pixel) (rest : List Pixel) (i : Nat) :
    whiteIdxAux (p :: rest) i =
      if isWhitePix p then i :: whiteIdxAux rest (i + 1)
      else whiteIdxAux rest (i + 1) := rfl

theorem whiteIdxAux_eq_nil :
    ∀ {row : List Pixel} {i : Nat},
      whiteIdxAux row i = [] ↔ ∀ p ∈ row, isWhitePix p = false := by
  intro row
  induction row with
  | nil => intro i; simp [whiteIdxAux]
  | cons p rest ih =>
    intro i
    rw [whiteIdxAux_cons]
    by_cases hw : isWhitePix p = true
    · rw [if_pos hw]
      constructor
      · intro hc; cases hc
      · intro hall
        have hp := hall p (List.mem_cons_self p rest)
        rw [hp] at hw
        cases hw
    · rw [if_neg hw, ih]
      constructor
      · intro hall q hq
        rcases List.mem_cons.mp hq with hq | hq
        · subst hq
          exact Bool.not_eq_true _ ▸ Bool.eq_false_iff.mpr hw
        · exact hall q hq
      · intro hall q hq
        exact hall q (by simp [hq])

theorem whiteIdxAux_lower :
    ∀ {row : List Pixel} {i : Nat}, ∀ j ∈ whiteIdxAux row i, i ≤ j := by
  intro row
  induction row with
  | nil => intro i j hj; simp [whiteIdxAux] at hj
  | cons p rest ih =>
    intro i j hj
    rw [whiteIdxAux_cons] at hj
    by_cases hw : isWhitePix p = true
    · rw [if_pos hw] at hj
      rcases List.mem_cons.mp hj with hj | hj
      · omega
      · have := ih j hj; omega
    · rw [if_neg hw] at hj
      have := ih j hj; omega

theorem whiteIdxAux_pairwise :
    ∀ (row : List Pixel) (i : Nat), (whiteIdxAux row i).Pairwise (· < ·) := by
  intro row
  induction row with
  | nil => intro i; simp [whiteIdxAux]
  | cons p rest ih =>
    intro i
    rw [whiteIdxAux_cons]
    by_cases hw : isWhitePix p = true
    · rw [if_pos hw]
      refine List.Pairwise.cons ?_ (ih (i + 1))
      intro j hj
      have := whiteIdxAux_lower j hj
      omega
    · rw [if_neg hw]
      exact ih (i + 1)

theorem whiteIdxAux_mem_white :
    ∀ {row : List Pixel} {i : Nat}, ∀ j ∈ whiteIdxAux row i,
      ∃ k, ∃ h : k < row.length, j = i + k ∧ isWhitePix (row.get ⟨k, h⟩) = true := by
  intro row
  induction row with
  | nil => intro i j hj; simp [whiteIdxAux] at hj
  | cons p rest ih =>
    intro i j hj
    rw [whiteIdxAux_cons] at hj
    by_cases hw : isWhitePix p = true
    · rw [if_pos hw] at hj
      rcases List.mem_cons.mp hj with hj | hj
      · exact ⟨0, by simp, by omega, hw⟩
      · obtain ⟨k, hk, hjk, hwk⟩ := ih j hj
        exact ⟨k + 1, by simpa using hk, by omega, hwk⟩
    · rw [if_neg hw] at hj
      obtain ⟨k, hk, hjk, hwk⟩ := ih j hj
      exact ⟨k + 1, by simpa using hk, by omega, hwk⟩

theorem whiteIdxAux_white_mem :
    ∀ {row : List Pixel} {i : Nat} (k : Nat) (h : k < row.length),
      isWhitePix (row.get ⟨k, h⟩) = true → (i + k) ∈ whiteIdxAux row i := by
  intro row
  induction row with
  | nil => intro i k h; simp at h
  | cons p rest ih =>
    intro i k h hw
    cases k with
    | zero =>
      simp only [List.get] at hw
      rw [whiteIdxAux_cons, if_pos hw]
      simp
    | succ k =>
      simp only [List.get] at hw
      have hmem := ih (i := i + 1) k (by simpa using h) hw
      rw [whiteIdxAux_cons]
      by_cases hwp : isWhitePix p = true
      · rw [if_pos hwp]
        refine List.mem_cons.mpr (Or.inr ?_)
        have : i + 1 + k = i + (k + 1) := by omega
        rw [← this]
        exact hmem
      · rw [if_neg hwp]
        have : i + 1 + k = i + (k + 1) := by omega
        rw [← this]
        exact hmem

theorem pairwise_head_le {j : Nat} {rest : List Nat}
    (hp : (j :: rest).Pairwise (· < ·)) : ∀ x ∈ j :: rest, j ≤ x := by
  intro x hx
  rcases List.mem_cons.mp hx with hx | hx
  · omega
  · have := (List.pairwise_cons.mp hp).1 x hx
    omega

theorem lastD_mem : ∀ (rest : List Nat) (j : Nat), lastD rest j ∈ j :: rest := by
  intro rest
  induction rest with
  | nil => intro j; simp [lastD]
  | cons x t ih =>
    intro j
    have := ih x
    rcases List.mem_cons.mp this with h | h
    · simp [lastD, h]
    · simp [lastD]
      right
      right
      simpa [lastD] using h

theorem pairwise_le_lastD :
    ∀ (rest : List Nat) (j : Nat), (j :: rest).Pairwise (· < ·) →
      ∀ x ∈ j :: rest, x ≤ lastD rest j := by
  intro rest
  induction rest with
  | nil =>
    intro j _ x hx
    rcases List.mem_cons.mp hx with hx | hx
    · simp [lastD, hx]
    · simp at hx
  | cons y t ih =>
    intro j hp x hx
    have hyt : (y :: t).Pairwise (· < ·) := (List.pairwise_cons.mp hp).2
    have hjy : j < y := (List.pairwise_cons.mp hp).1 y (by simp)
    rcases List.mem_cons.mp hx with hx | hx
    · subst hx
      have := ih y hyt y (by simp)
      simp only [lastD]
      omega
    · simpa [lastD] using ih y hyt x hx

/-!
## Claim theorems
-/

/-- The input on which `find_matching_brace` misbehaves: an opening brace, a
template literal whose `${...}` expression contains a double-quoted string
holding a `\x7b`, and the real matching close at index 9 —
the string `\x7b`+backtick+`$\x7b"\x7b"\x7d`+backtick+`\x7d`. -/
def c1FailingInput : List Char :=
  [obrC, btC, '$', obrC, dqC, obrC, dqC, cbrC, btC, cbrC]

/-- C1: on the 10-character input whose only braces outside string/template
contexts are the opener at 0 and the closer at 9, `find_matching_brace`
returns 11 — past the end of the string — because the `${...}` skipper
counts the `\x7b` inside the double-quoted string.  This contradicts the
function's stated contract of returning the matching closing brace while
handling strings. -/
theorem c1_find_matching_brace_bug :
    find_matching_brace c1FailingInput 0 = 11 ∧
    c1FailingInput.length = 10 ∧
    c1FailingInput.getD 0 ' ' = obrC ∧
    c1FailingInput.getD 9 ' ' = cbrC ∧
    ¬ find_matching_brace c1FailingInput 0 < c1FailingInput.length := by
  decide

/-- A fix-cyan-tech input containing the start marker but neither end
marker. -/
def c2Content : List Char :=
  cyanTechStartMarker ++ str "\n  const layers = [];\n\x7d\n"

set_option maxRecDepth 40000 in
/-- C2 counterexample: when both end markers are absent (but the start
marker is present), fix-cyan-tech.py does not exit and does not leave the
file untouched — it splices at a fallback position computed by `rfind`. -/
theorem c2_counterexample :
    hasSub cyanTechEndMarker1 c2Content = false ∧
    hasSub cyanTechEndMarker2 c2Content = false ∧
    hasSub cyanTechStartMarker c2Content = true ∧
    (fixCyanTech c2Content).isOk = true ∧
    fixCyanTech c2Content ≠ .ok c2Content := by
  decide

/-- C2 (amended): fix-cyan-tech.py exits with status 1 when its start
marker is absent; add-logo-to-templates.py leaves the lines unchanged when
the function or its `return layers;` line is not found; swap-front-back.py
returns `None` (and skips) when a front function is not found. -/
theorem c2_marker_handling :
    (∀ c : List Char, hasSub cyanTechStartMarker c = false →
      fixCyanTech c = .error 1) ∧
    (∀ (lines : List (List Char)) (f : List Char) (code : List (List Char)),
      (∀ l ∈ lines, hasSub (funcNamePat f) l = false) →
      find_function_range lines f = (none, none) ∧
      insert_before_return lines f code = lines) ∧
    (∀ (lines : List (List Char)) (f : List Char) (code : List (List Char)),
      (find_function_range lines f).2 = none →
      insert_before_return lines f code = lines) ∧
    (∀ (c f : List Char), hasSub (funcNamePat f) c = false →
      find_front_function c f = none) := by
  refine ⟨?_, ?_, ?_, ?_⟩
  · intro c h
    have hfind : pyFind c cyanTechStartMarker = none := pyFind_eq_none.mpr h
    simp [fixCyanTech, hfind]
  · intro lines f code h
    have hfirst : firstLineIdx (fun l => hasSub (funcNamePat f) l) lines 0 = none :=
      firstLineIdx_eq_none h
    constructor
    · simp [find_function_range, hfirst]
    · simp [insert_before_return, find_function_range, hfirst]
  · intro lines f code h
    simp [insert_before_return, h]
  · intro c f h
    have hfind : pyFind c (funcNamePat f) = none := pyFind_eq_none.mpr h
    simp [find_front_function, hfind]

/-- C2 witness: concrete marker-absent inputs exercising every part of
`c2_marker_handling`. -/
theorem c2_witness :
    fixCyanTech (str "abc") = .error 1 ∧
    find_function_range [str "abc"] (str "layoutFoo") = (none, none) ∧
    insert_before_return [str "abc"] (str "layoutFoo") [str "x"] = [str "abc"] ∧
    insert_before_return [str "function layoutBar() \x7b"] (str "layoutBar")
      [str "x"] = [str "function layoutBar() \x7b"] ∧
    find_front_function (str "abc") (str "layoutFoo") = none :=
  ⟨c2_marker_handling.1 (str "abc") (by decide),
   (c2_marker_handling.2.1 [str "abc"] (str "layoutFoo") [str "x"] (by decide)).1,
   (c2_marker_handling.2.1 [str "abc"] (str "layoutFoo") [str "x"] (by decide)).2,
   c2_marker_handling.2.2.1 [str "function layoutBar() \x7b"] (str "layoutBar")
     [str "x"] (by decide),
   c2_marker_handling.2.2.2 (str "abc") (str "layoutFoo") (by decide)⟩

/-- A line that fix-fonts.py patches (the monogram `sansFont` pattern). -/
def c3Input : List Char := str "const sansFont = FONT_STACKS.geometric"

set_option maxRecDepth 20000 in
/-- C3 counterexample: fix-fonts.py genuinely patches this input on the
first run, and a second run leaves the patched text unchanged — so this
source-patching script is idempotent on already-patched input. -/
theorem c3_counterexample :
    fixFonts c3Input ≠ c3Input ∧
    fixFonts (fixFonts c3Input) = fixFonts c3Input := by
  decide

/-- A minimal layout function for add-logo-to-templates.py. -/
def c3LogoLines : List (List Char) :=
  [str "function layoutMonogramLuxe(W, H, cfg, fs, ff) \x7b",
   str "  return layers;",
   str "\x7d"]

/-- The `code` lines the script builds for `layoutMonogramLuxe`. -/
def c3WatermarkCode : List (List Char) :=
  watermarkCode (str "W * 0.48") (str "H * 0.72") (str "H * 0.10")
    (str "t.frontText")

/-- The once-patched line list. -/
def c3Patched : List (List Char) :=
  insert_before_return c3LogoLines (str "layoutMonogramLuxe") c3WatermarkCode

set_option maxRecDepth 20000 in
/-- C3 (amended): add-logo-to-templates.py is not idempotent — re-running
its insertion on already-patched lines inserts the watermark block a second
time — but fix-fonts.py leaves its own patched output unchanged, so not
every source-patching script is non-idempotent on already-patched input. -/
theorem c3_amended :
    (c3Patched ≠ c3LogoLines ∧
     c3Patched.count (str "  // -- Logo watermark --") = 1 ∧
     insert_before_return c3Patched (str "layoutMonogramLuxe") c3WatermarkCode
       ≠ c3Patched ∧
     (insert_before_return c3Patched (str "layoutMonogramLuxe")
       c3WatermarkCode).count (str "  // -- Logo watermark --") = 2) ∧
    (fixFonts c3Input ≠ c3Input ∧
     fixFonts (fixFonts c3Input) = fixFonts c3Input) := by
  decide

/-- C4 counterexample: analyze-business-cards.py writes the Markdown report
of its first image to a path it never opened for reading. -/
theorem c4_counterexample :
    cardsWrites.contains
      (cardsOutputPath (str "d470b54b4667bbb67204e858d6f0a01f.jpg")) = true ∧
    cardsReads.contains
      (cardsOutputPath (str "d470b54b4667bbb67204e858d6f0a01f.jpg")) = false := by
  decide

/-- C4 (amended): the source-patching scripts write only files they read in
the same run (swap-front-back.py and fix-fonts.py write back exactly the
files they read), but analyze-business-cards.py writes one Markdown report
per image to files it did not read. -/
theorem c4_amended :
    swapWrites.all (fun w => swapReads.contains w) = true ∧
    fixFontsWrites.all (fun w => fixFontsReads.contains w) = true ∧
    cardsWrites.all (fun w => !(cardsReads.contains w)) = true ∧
    cardsWrites ≠ [] := by
  decide

/-- An oracle whose image loads always fail. -/
def c5LoadFailOracle : Oracles :=
  ⟨fun _ => .error (str "No such file or directory"),
   fun _ => .ok (str "analysis")⟩

/-- C5 counterexample: with two images and a failing image load, the run
crashes on the first image — no error is printed-and-skipped, and the
second image is never processed (no events at all are produced). -/
theorem c5_counterexample :
    runImages c5LoadFailOracle [str "a.jpg", str "b.jpg"] =
      ([], some (str "No such file or directory")) := by
  decide

/-- C5 (amended): when every image load succeeds, an API error inside the
`try` is caught and printed and the loop proceeds — the run finishes with
exactly one API call per image; an image-loading failure, however, is
outside the `try` and aborts the whole run. -/
theorem c5_amended :
    (∀ (o : Oracles) (imgs : List (List Char)),
      (∀ fn ∈ imgs, (o.loadImage (cardsImagePath fn)).isOk = true) →
      runImages o imgs = (tracesOf o imgs, none) ∧
      (tracesOf o imgs).countP isApiEvent = imgs.length) ∧
    (∀ (o : Oracles) (fn : List Char) (rest : List (List Char)) (e : List Char),
      o.loadImage (cardsImagePath fn) = .error e →
      runImages o (fn :: rest) = ([], some e)) :=
  ⟨fun _ _ h => ⟨runImages_ok h, countP_apiEvent_tracesOf h⟩,
   fun _ _ _ _ h => runImages_load_error h⟩

/-- An oracle whose loads succeed and whose API calls always fail. -/
def c5ApiFailOracle : Oracles :=
  ⟨fun _ => .ok (str "bytes"), fun _ => .error (str "api error")⟩

/-- C5 witness: both branches of `c5_amended` at concrete oracles. -/
theorem c5_witness :
    runImages c5ApiFailOracle [str "a.jpg", str "b.jpg"] =
      (tracesOf c5ApiFailOracle [str "a.jpg", str "b.jpg"], none) ∧
    (tracesOf c5ApiFailOracle [str "a.jpg", str "b.jpg"]).countP isApiEvent = 2 ∧
    runImages c5LoadFailOracle [str "z.jpg"] =
      ([], some (str "No such file or directory")) :=
  ⟨(c5_amended.1 c5ApiFailOracle [str "a.jpg", str "b.jpg"] (by decide)).1,
   (c5_amended.1 c5ApiFailOracle [str "a.jpg", str "b.jpg"] (by decide)).2,
   c5_amended.2 c5LoadFailOracle (str "z.jpg") [] _ (by decide)⟩

/-- C6: when the parsed `.env.local` mapping has no `ANTHROPIC_API_KEY`
entry, the script reads only the env file and exits with status 1 — no API
call and no report write happens. -/
theorem c6_missing_key_exits :
    ∀ (envLines : List (List Char)) (o : Oracles),
      envGet (str "ANTHROPIC_API_KEY") (load_env envLines) = none →
      analyzeRun envLines o = ([Event.readFile cardsEnvPath], .exitedOne) ∧
      (analyzeRun envLines o).1.countP isApiEvent = 0 ∧
      (analyzeRun envLines o).1.countP isWriteEvent = 0 := by
  intro envLines o h
  have heq : analyzeRun envLines o = ([Event.readFile cardsEnvPath], .exitedOne) := by
    unfold analyzeRun
    rw [h]
  refine ⟨heq, ?_, ?_⟩ <;> rw [heq] <;> decide

/-- Env lines with comments, blanks and an unrelated key only. -/
def c6EnvLines : List (List Char) := [str "# comment", str "", str "OTHER=x"]

/-- An oracle for the C6 witness run. -/
def c6Oracle : Oracles := ⟨fun _ => .ok [], fun _ => .ok []⟩

/-- C6 witness: a concrete env file without the key makes the run exit
with status 1 after only the env read. -/
theorem c6_witness :
    analyzeRun c6EnvLines c6Oracle = ([Event.readFile cardsEnvPath], .exitedOne) :=
  (c6_missing_key_exits c6EnvLines c6Oracle (by decide)).1

/-- C7: per scanned row, a pixel counts as white exactly when R, G and B
all exceed 200; the reported extent runs from the first to the last such
pixel, and a row with none is reported as having no white pixels. -/
theorem c7_white_detection :
    ∀ row : List Pixel,
      (whiteRow row = none ↔
        ∀ p ∈ row, ¬(200 < p.1 ∧ 200 < p.2.1 ∧ 200 < p.2.2)) ∧
      (∀ a b k, whiteRow row = some (a, b, k) →
        (∃ h : a < row.length,
          200 < (row.get ⟨a, h⟩).1 ∧ 200 < (row.get ⟨a, h⟩).2.1 ∧
          200 < (row.get ⟨a, h⟩).2.2) ∧
        (∃ h : b < row.length,
          200 < (row.get ⟨b, h⟩).1 ∧ 200 < (row.get ⟨b, h⟩).2.1 ∧
          200 < (row.get ⟨b, h⟩).2.2) ∧
        (∀ j (h : j < row.length),
          200 < (row.get ⟨j, h⟩).1 → 200 < (row.get ⟨j, h⟩).2.1 →
          200 < (row.get ⟨j, h⟩).2.2 → a ≤ j ∧ j ≤ b)) := by
  intro row
  constructor
  · constructor
    · intro hnone p hp hw
      unfold whiteRow at hnone
      cases haux : whiteIdxAux row 0 with
      | nil =>
        have hfalse := whiteIdxAux_eq_nil.mp haux p hp
        rw [isWhitePix_iff.mpr hw] at hfalse
        cases hfalse
      | cons j t => rw [haux] at hnone; cases hnone
    · intro hall
      unfold whiteRow
      cases haux : whiteIdxAux row 0 with
      | nil => rfl
      | cons j t =>
        have hjmem : j ∈ whiteIdxAux row 0 := by
          rw [haux]; exact List.mem_cons_self j t
        obtain ⟨m, hm, hjm, hwm⟩ := whiteIdxAux_mem_white j hjmem
        exact absurd (isWhitePix_iff.mp hwm) (hall _ (List.get_mem row m hm))
  · intro a b k hsome
    unfold whiteRow at hsome
    cases haux : whiteIdxAux row 0 with
    | nil => rw [haux] at hsome; cases hsome
    | cons j t =>
      rw [haux] at hsome
      have h1 := Option.some.inj hsome
      have hja : j = a := congrArg Prod.fst h1
      have hlb : lastD t j = b := congrArg (fun x => x.2.1) h1
      subst hja
      have hpw : (j :: t).Pairwise (· < ·) := haux ▸ whiteIdxAux_pairwise row 0
      refine ⟨?_, ?_, ?_⟩
      · have hjmem : j ∈ whiteIdxAux row 0 := by
          rw [haux]; exact List.mem_cons_self j t
        obtain ⟨m, hm, hjm, hwm⟩ := whiteIdxAux_mem_white j hjmem
        have hmj : m = j := by omega
        subst hmj
        exact ⟨hm, isWhitePix_iff.mp hwm⟩
      · have hbmem : b ∈ whiteIdxAux row 0 := by
          rw [haux, ← hlb]; exact lastD_mem t j
        obtain ⟨m, hm, hjm, hwm⟩ := whiteIdxAux_mem_white b hbmem
        have hmb : m = b := by omega
        subst hmb
        exact ⟨hm, isWhitePix_iff.mp hwm⟩
      · intro j' h hr hg hbl
        have hwj : isWhitePix (row.get ⟨j', h⟩) = true :=
          isWhitePix_iff.mpr ⟨hr, hg, hbl⟩
        have hmem0 : (0 + j') ∈ whiteIdxAux row 0 :=
          whiteIdxAux_white_mem j' h hwj
        have hmem : j' ∈ j :: t := by
          rw [← haux]; simpa using hmem0
        refine ⟨pairwise_head_le hpw j' hmem, ?_⟩
        have hle := pairwise_le_lastD t j hpw j' hmem
        rw [hlb] at hle
        exact hle

/-- A row with a white band at indices 1–2. -/
def c7RowA : List Pixel := [(0, 0, 0), (201, 202, 203), (255, 255, 255), (10, 10, 10)]

/-- A row with no white pixel (200 does not exceed 200). -/
def c7RowB : List Pixel := [(0, 0, 0), (200, 200, 200)]

/-- C7 witness: the no-white row reports `none`, and the detected first
index of the banded row is genuinely white. -/
theorem c7_witness :
    whiteRow c7RowB = none ∧
    (∃ h : 1 < c7RowA.length,
      200 < (c7RowA.get ⟨1, h⟩).1 ∧ 200 < (c7RowA.get ⟨1, h⟩).2.1 ∧
      200 < (c7RowA.get ⟨1, h⟩).2.2) :=
  ⟨(c7_white_detection c7RowB).1.mpr (by decide),
   ((c7_white_detection c7RowA).2 1 2 2 (by decide)).1⟩

/-- C8: fix-fonts.py preserves the number of newline-separated lines: every
edit rewrites one line in place (possibly to the empty line), and the final
`'\n'.join` of the same-length line list splits back into as many lines as
the input had. -/
theorem c8_line_count_preserved :
    ∀ content : List Char,
      (splitNL (fixFonts content)).length = (splitNL content).length := by
  intro c
  unfold fixFonts
  have hnn : ∀ x ∈ fixFontsLines (splitNL c), nlC ∉ x :=
    fixFontsLines_no_nl (mem_splitNL_no_nl c)
  have hne : fixFontsLines (splitNL c) ≠ [] := by
    intro hcontr
    have hlen := fixFontsLines_length (splitNL c)
    rw [hcontr] at hlen
    exact splitNL_ne_nil c (List.length_eq_zero.mp hlen.symm)
  rw [splitNL_joinNL hne hnn, fixFontsLines_length]

/-- C9: fix-ff-errors.py indexes its hard-coded 1-indexed lines up to 3950
with no bounds check: an input of at least 3950 lines is processed to the
final write, and a shorter input raises `IndexError` before any write. -/
theorem c9_hardcoded_indexing :
    ∀ l : List (List Char),
      (3950 ≤ l.length → (fixFfErrors l).isOk = true) ∧
      (l.length < 3950 → (fixFfErrors l).isOk = false) := by
  intro l
  have hbound : ∀ ln ∈ ff_error_lines, ln - 1 < 3950 := by decide
  constructor
  · intro h
    have hall : ∀ ln ∈ ff_error_lines, ln - 1 < l.length := by
      intro ln hln
      have := hbound ln hln
      omega
    obtain ⟨l1, hok, hlen⟩ := ffErrorsFold_ok ff_error_lines l hall
    have hget := pyGet_eq_ok [] l1 (3950 - 1) (by omega)
    simp [fixFfErrors, hok, hget, Except.isOk, Except.toBool]
  · intro h
    by_cases hall : ∀ ln ∈ ff_error_lines, ln - 1 < l.length
    · obtain ⟨l1, hok, hlen⟩ := ffErrorsFold_ok ff_error_lines l hall
      have hget := pyGet_eq_error l1 (3950 - 1) (by omega)
      simp [fixFfErrors, hok, hget, Except.isOk, Except.toBool]
    · push_neg at hall
      obtain ⟨ln, hln, hge⟩ := hall
      have herr := ffErrorsFold_error ff_error_lines l ⟨ln, hln, by omega⟩
      simp [fixFfErrors, herr, Except.isOk, Except.toBool]

/-- A 3950-line input. -/
def c9LongInput : List (List Char) := List.replicate 3950 (str "x")

/-- C9 witness: both branches at concrete inputs. -/
theorem c9_witness :
    (fixFfErrors c9LongInput).isOk = true ∧
    (fixFfErrors [str "x"]).isOk = false :=
  ⟨(c9_hardcoded_indexing c9LongInput).1
     (by simp only [c9LongInput, List.length_replicate]; decide),
   (c9_hardcoded_indexing [str "x"]).2 (by decide)⟩

/-- C10: when no searched substring occurs on the listed lines and no line
matches the monogram patterns, fix-fonts.py writes back exactly what it
read (split on `'\n'` and re-joined); likewise fix-ff-errors.py returns its
input lines unchanged when no listed line is changed by the substitution
and line 3950 lacks `const ff = ff`. -/
theorem c10_noop_roundtrip :
    (∀ content : List Char,
      (∀ ln ∈ front_font_lines ++ back_font_lines ++ back_ff_lines,
        hasSub geoPat ((splitNL content).getD (ln - 1) []) = false) →
      (∀ ln ∈ front_ff_delete_lines,
        hasSub (str "const ff = FONT_STACKS.geometric")
          ((splitNL content).getD (ln - 1) []) = false) →
      (∀ x ∈ splitNL content,
        hasSub (str "const sansFont = FONT_STACKS.geometric") x = false) →
      (∀ x ∈ splitNL content,
        hasSub (str "const serifFont = FONT_STACKS.serif") x = false) →
      fixFonts content = content) ∧
    (∀ l : List (List Char), 3950 ≤ l.length →
      (∀ ln ∈ ff_error_lines,
        resubFf (l.getD (ln - 1) []) = l.getD (ln - 1) []) →
      hasSub (str "const ff = ff") (l.getD (3950 - 1) []) = false →
      fixFfErrors l = .ok l) := by
  constructor
  · intro c h1 h2 h3 h4
    unfold fixFonts
    suffices hfix : fixFontsLines (splitNL c) = splitNL c by
      rw [hfix, joinNL_splitNL]
    have hx_of_getD : ∀ i : Nat,
        (splitNL c).getD i [] = [] ∨ (splitNL c).getD i [] ∈ splitNL c :=
      fun i => getD_default_or_mem [] (splitNL c) i
    unfold fixFontsLines
    have step1 : ∀ i ∈ List.range (splitNL c).length,
        fixFontsStep1 (splitNL c) i = splitNL c := by
      intro i _
      simp only [fixFontsStep1]
      by_cases hA : front_font_lines.contains (i + 1) = true
      · rw [if_pos hA]
        have hmem : (i + 1) ∈ front_font_lines := by simpa using hA
        have hh := h1 (i + 1) (by simp [hmem])
        simp only [Nat.add_sub_cancel] at hh
        rw [pyReplace_id_of_not_hasSub hh, list_set_getD_self]
      · rw [if_neg hA]
        by_cases hB : back_font_lines.contains (i + 1) = true
        · rw [if_pos hB]
          have hmem : (i + 1) ∈ back_font_lines := by simpa using hB
          have hh := h1 (i + 1) (by simp [hmem])
          simp only [Nat.add_sub_cancel] at hh
          rw [pyReplace_id_of_not_hasSub hh, list_set_getD_self]
        · rw [if_neg hB]
          by_cases hC : front_ff_delete_lines.contains (i + 1) = true
          · rw [if_pos hC]
            have hmem : (i + 1) ∈ front_ff_delete_lines := by simpa using hC
            have hh := h2 (i + 1) hmem
            simp only [Nat.add_sub_cancel] at hh
            rw [if_neg fun hcontra => Bool.false_ne_true (hh ▸ hcontra)]
          · rw [if_neg hC]
            by_cases hD : back_ff_lines.contains (i + 1) = true
            · rw [if_pos hD]
              have hmem : (i + 1) ∈ back_ff_lines := by simpa using hD
              have hh := h1 (i + 1) (by simp [hmem])
              simp only [Nat.add_sub_cancel] at hh
              rw [pyReplace_id_of_not_hasSub hh, list_set_getD_self]
            · rw [if_neg hD]
    have step2 : ∀ i ∈ List.range (splitNL c).length,
        fixFontsStep2 (splitNL c) i = splitNL c := by
      intro i _
      simp only [fixFontsStep2]
      have hno : hasSub (str "const sansFont = FONT_STACKS.geometric")
          ((splitNL c).getD i []) = false := by
        rcases hx_of_getD i with hd | hd
        · rw [hd]; decide
        · exact h3 _ hd
      rw [if_neg fun hcontra => Bool.false_ne_true (hno ▸ hcontra)]
    have step3 : ∀ i ∈ List.range (splitNL c).length,
        fixFontsStep3 (splitNL c) i = splitNL c := by
      intro i _
      simp only [fixFontsStep3]
      have hno : hasSub (str "const serifFont = FONT_STACKS.serif")
          ((splitNL c).getD i []) = false := by
        rcases hx_of_getD i with hd | hd
        · rw [hd]; decide
        · exact h4 _ hd
      rw [if_neg fun hcontra => Bool.false_ne_true (hno ▸ hcontra)]
    simp only [foldl_id_of_fixed step1, foldl_id_of_fixed step2,
      foldl_id_of_fixed step3]
  · intro l hlen hres h3950
    have hbound : ∀ ln ∈ ff_error_lines, ln - 1 < 3950 := by decide
    have hall : ∀ ln ∈ ff_error_lines, ln - 1 < l.length := by
      intro ln hln
      have := hbound ln hln
      omega
    have hfold := ffErrorsFold_id ff_error_lines l hres hall
    have hget := pyGet_eq_ok [] l (3950 - 1) (by omega)
    simp only [fixFfErrors, hfold, hget]
    rw [if_neg fun hcontra => Bool.false_ne_true (h3950 ▸ hcontra)]

/-- A two-line content with none of the fix-fonts patterns. -/
def c10Content : List Char := str "hello\nworld"

/-- A 3950-line input with no `ff` tokens. -/
def c10Lines : List (List Char) := List.replicate 3950 (str "y")

set_option maxRecDepth 100000 in
/-- C10 witness: both round-trips at concrete inputs. -/
theorem c10_witness :
    fixFonts c10Content = c10Content ∧ fixFfErrors c10Lines = .ok c10Lines :=
  ⟨c10_noop_roundtrip.1 c10Content (by decide) (by decide) (by decide) (by decide),
   c10_noop_roundtrip.2 c10Lines
     (by simp only [c10Lines, List.length_replicate]; decide) (by decide) (by decide)⟩

end DMSuite
